import Mathlib

/-!
Verification of the layer library in `network/layer.py`
(deep-neural-network-with-numpy).

Arrays are shallowly embedded: a rank-1 tensor is `List ℚ`, a rank-2
tensor is `Mat := List (List ℚ)` (rows), a rank-4 tensor is `T4`
(batch, channel, height, width nesting).  NumPy floats are modelled as
rationals; `np.sqrt` has no exact rational counterpart, so operations
that use it take an abstract `sq : ℚ → ℚ` argument.  Operations that
can raise (`reshape` with a size mismatch, operating on a `None`
field) return `Option`.
-/

namespace DNN

abbrev Vec := List ℚ
abbrev Mat := List (List ℚ)
abbrev T4 := List (List (List (List ℚ)))

/-- Dot product of two vectors (`np.dot` on rank-1 operands). -/
def dotV (a b : Vec) : ℚ := (List.zipWith (· * ·) a b).sum

/-- Number of columns of a matrix (length of the first row; `x.shape[1]`). -/
def ncols (m : Mat) : Nat := (m.headD []).length

/-- Matrix transpose (`x.T`): column `j` of `m` becomes row `j`. -/
def transposeM (m : Mat) : Mat :=
  (List.range (ncols m)).map (fun j => m.map (fun row => row.getD j 0))

/-- Matrix product (`np.dot` on rank-2 operands). -/
def matMul (a b : Mat) : Mat :=
  a.map (fun row => (transposeM b).map (fun col => dotV row col))

/-- Broadcast addition of a row vector to every row (`m + b` for rank-1 `b`). -/
def addRow (m : Mat) (b : Vec) : Mat :=
  m.map (fun row => List.zipWith (· + ·) row b)

/-- Broadcast subtraction of a row vector from every row (`m - b`). -/
def subRow (m : Mat) (b : Vec) : Mat :=
  m.map (fun row => List.zipWith (· - ·) row b)

/-- Broadcast elementwise product with a row vector (`m * b`). -/
def mulRow (m : Mat) (b : Vec) : Mat :=
  m.map (fun row => List.zipWith (· * ·) row b)

/-- Broadcast elementwise division by a row vector (`m / b`). -/
def divRow (m : Mat) (b : Vec) : Mat :=
  m.map (fun row => List.zipWith (· / ·) row b)

/-- Column-wise sum (`np.sum(m, axis=0)`). -/
def colSum (m : Mat) : Vec := (transposeM m).map (fun col => col.sum)

/-- Column-wise mean (`m.mean(axis=0)`). -/
def colMean (m : Mat) : Vec := (colSum m).map (fun s => s / (m.length : ℚ))

/-- Elementwise square of a matrix (`m**2`). -/
def matSq (m : Mat) : Mat := m.map (fun row => row.map (fun v => v * v))

/-- Elementwise difference of two matrices of the same shape (`a - b`). -/
def matSub (a b : Mat) : Mat := List.zipWith (List.zipWith (· - ·)) a b

/-- Elementwise scaling of a matrix by a scalar (`m / c` written as `* (1/c)`). -/
def matScale (c : ℚ) (m : Mat) : Mat := m.map (fun row => row.map (fun v => c * v))

section Affine

/-- State of an `Affine` layer instance: parameters `W`, `b`, the cached
flattened input `x`, and the gradients `dW`, `db` written by `backward`
(`None` before the first corresponding call). -/
structure AffineState where
  W : Mat
  b : Vec
  x : Option Mat
  dW : Option Mat
  db : Option Vec
  deriving DecidableEq

/-- A fresh `Affine` instance (`Affine.__init__`). -/
def affineInit (W : Mat) (b : Vec) : AffineState :=
  { W := W, b := b, x := none, dW := none, db := none }

/-- `Affine.forward` on a rank-2 input (for which `x.reshape(x.shape[0], -1)`
is the identity): caches `x` and returns `np.dot(x, W) + b`. -/
def affineForward (st : AffineState) (x : Mat) : Mat × AffineState :=
  (addRow (matMul x st.W) st.b, { st with x := some x })

/-- `Affine.backward` on a layer whose input was rank-2 (the final reshape to
the original shape is the identity): returns `dx = np.dot(dout, W.T)` and
stores `dW = np.dot(x.T, dout)` and `db = np.sum(dout, axis=0)` on the
instance. -/
def affineBackward (st : AffineState) (dout : Mat) : Mat × AffineState :=
  (matMul dout (transposeM st.W),
   { st with dW := some (matMul (transposeM (st.x.getD [])) dout),
             db := some (colSum dout) })

end Affine

end DNN

namespace DNN

/-- C1: For the Affine layer constructed with `W = [[1,0],[0,1]]`,
`b = [0,0]`: `forward([[1,2]])` returns `[[1,2]]`, and a subsequent
`backward([[1,1]])` returns `dx = [[1,1]]` and stores `dW = [[1,1],[2,2]]`
and `db = [1,1]` on the instance. -/
theorem affine_example_c1 :
    (affineForward (affineInit [[1, 0], [0, 1]] [0, 0]) [[1, 2]]).1 = [[1, 2]] ∧
    (affineBackward (affineForward (affineInit [[1, 0], [0, 1]] [0, 0])
        [[1, 2]]).2 [[1, 1]]).1 = [[1, 1]] ∧
    (affineBackward (affineForward (affineInit [[1, 0], [0, 1]] [0, 0])
        [[1, 2]]).2 [[1, 1]]).2.dW = some [[1, 1], [2, 2]] ∧
    (affineBackward (affineForward (affineInit [[1, 0], [0, 1]] [0, 0])
        [[1, 2]]).2 [[1, 1]]).2.db = some [1, 1] := by
  refine ⟨?_, ?_, ?_, ?_⟩ <;>
    norm_num [affineInit, affineForward, affineBackward, matMul, transposeM,
      dotV, ncols, addRow, colSum, List.range_succ]

end DNN

namespace DNN

section SoftmaxWithLoss

/-- The dynamically-typed NumPy target array `t` held by a
`SoftmaxWithLoss` instance after `forward`: either a rank-2 array
(one-hot rows) or a rank-1 array of integer class indices. -/
inductive Target where
  | mat (m : Mat)
  | vec (v : List Nat)
  deriving DecidableEq

/-- `t.size`: total number of elements of the target array. -/
def Target.size : Target → Nat
  | .mat m => (m.map List.length).sum
  | .vec v => v.length

/-- `t.shape[0]`: first dimension of the target array. -/
def Target.shape0 : Target → Nat
  | .mat m => m.length
  | .vec v => v.length

/-- `y.size` for a rank-2 array. -/
def matSize (m : Mat) : Nat := (m.map List.length).sum

/-- `dx[np.arange(batch_size), t] -= 1` on a copy of `y`: subtract `1` at
column `t[i]` of row `i`, for each row. -/
def subOneAtIdx (y : Mat) (t : List Nat) : Mat :=
  List.zipWith (fun row k => row.mapIdx (fun j v => if j = k then v - 1 else v)) y t

/-- `SoftmaxWithLoss.backward(dout)` given the cached softmax output `y`
and target `t`.  The `dout` argument appears in the Python signature
(default `1`) but is never read.  `batch_size = t.shape[0]`; the branch
is chosen by `t.size == y.size`.  The two branch/rank combinations that
NumPy rejects (broadcast mismatch in `y - t` for a rank-1 `t` of the
wrong length; float fancy-indexing when `t` is rank-2) return `none`. -/
def swlBackward (y : Mat) (t : Target) (dout : ℚ) : Option Mat :=
  let batch_size : ℚ := (t.shape0 : ℚ)
  if t.size = matSize y then
    match t with
    | .mat tm => some (matScale (1 / batch_size) (matSub y tm))
    | .vec tv =>
        -- `(y - t) / batch_size` with a rank-1 `t` broadcasts `t` across rows
        if tv.length = ncols y then
          some (matScale (1 / batch_size) (subRow y (tv.map (Nat.cast))))
        else none
  else
    match t with
    | .vec tv => some (matScale (1 / batch_size) (subOneAtIdx y tv))
    | .mat _ => none  -- `dx[np.arange(batch_size), t]` with rank-2 float `t` raises

end SoftmaxWithLoss

/-- C2: after a forward that cached `y` and `t`, if `t.size == y.size`
(one-hot target) then `backward` returns `(y - t) / batch_size` with
`batch_size = t.shape[0]`; otherwise (class-index target) it returns a
copy of `y` with `1` subtracted at each row's target index, divided by
`batch_size`. -/
theorem swl_backward_c2 (y : Mat) (t : Target) (d : ℚ) :
    (∀ tm, t = .mat tm → t.size = matSize y →
        swlBackward y t d = some (matScale (1 / (t.shape0 : ℚ)) (matSub y tm))) ∧
    (∀ tv, t = .vec tv → t.size ≠ matSize y →
        swlBackward y t d = some (matScale (1 / (t.shape0 : ℚ)) (subOneAtIdx y tv))) := by
  constructor
  · rintro tm rfl hsize
    simp [swlBackward, hsize]
  · rintro tv rfl hsize
    simp [swlBackward, hsize]

/-- Witness for C2: both branches at concrete inputs. -/
theorem swl_backward_c2_witness :
    swlBackward [[1, 2]] (.mat [[0, 1]]) 1 =
        some (matScale (1 / ((Target.mat [[0, 1]]).shape0 : ℚ))
          (matSub [[1, 2]] [[0, 1]])) ∧
    swlBackward [[1, 2], [3, 4]] (.vec [1, 0]) 1 =
        some (matScale (1 / ((Target.vec [1, 0]).shape0 : ℚ))
          (subOneAtIdx [[1, 2], [3, 4]] [1, 0])) :=
  ⟨(swl_backward_c2 [[1, 2]] (.mat [[0, 1]]) 1).1 [[0, 1]] rfl (by decide),
   (swl_backward_c2 [[1, 2], [3, 4]] (.vec [1, 0]) 1).2 [1, 0] rfl (by decide)⟩

/-- C9: the return value of `SoftmaxWithLoss.backward` does not depend on
its `dout` argument: for a fixed cached state `(y, t)`, any two values of
`dout` give equal results. -/
theorem swl_backward_ignores_dout_c9 (y : Mat) (t : Target) (d1 d2 : ℚ) :
    swlBackward y t d1 = swlBackward y t d2 := rfl

end DNN

namespace DNN

section BatchNorm

/-- `10e-7`, the epsilon added before the square root in `BatchNorm`. -/
def bnEps : ℚ := 1 / 1000000

/-- State of a `BatchNorm` instance: parameters, momentum, the running
statistics (`None` until supplied or lazily initialized), and the cache
written by a training-mode forward. -/
structure BNState where
  gamma : Vec
  beta : Vec
  momentum : ℚ
  running_mean : Option Vec
  running_var : Option Vec
  batch_size : Option Nat
  xc : Option Mat
  xn : Option Mat
  std : Option Vec
  deriving DecidableEq

/-- A fresh `BatchNorm` instance (`BatchNorm.__init__` with the default
`running_mean=None`, `running_var=None`). -/
def bnInit (gamma beta : Vec) (momentum : ℚ) : BNState :=
  { gamma := gamma, beta := beta, momentum := momentum,
    running_mean := none, running_var := none,
    batch_size := none, xc := none, xn := none, std := none }

/-- `BatchNorm.__forward` on a rank-2 input `x`.  `sq` abstracts
`np.sqrt` (exact square roots of rationals are not rational in general).
First the lazy initialization: if `running_mean is None`, both running
statistics become zero vectors of length `D = x.shape[1]`.  Then the
training branch computes batch statistics, caches `xc`, `xn`, `std`,
`batch_size`, and updates the running statistics by exponential moving
average; the inference branch normalizes with the running statistics and
writes nothing but the lazily initialized fields.  Returns
`gamma * xn + beta` and the updated instance state. -/
def bnForward2 (sq : ℚ → ℚ) (st : BNState) (x : Mat) (train_flag : Bool) :
    Mat × BNState :=
  let D := ncols x
  let rm := st.running_mean.getD (List.replicate D 0)
  let rv := st.running_var.getD (List.replicate D 0)
  if train_flag then
    let mu := colMean x
    let xc := subRow x mu
    let var := colMean (matSq xc)
    let std := var.map (fun v => sq (v + bnEps))
    let xn := divRow xc std
    (addRow (mulRow xn st.gamma) st.beta,
     { st with
        batch_size := some x.length, xc := some xc, xn := some xn, std := some std,
        running_mean :=
          some (List.zipWith (fun a b => st.momentum * a + (1 - st.momentum) * b) rm mu),
        running_var :=
          some (List.zipWith (fun a b => st.momentum * a + (1 - st.momentum) * b) rv var) })
  else
    let xc := subRow x rm
    let xn := divRow xc (rv.map (fun v => sq (v + bnEps)))
    (addRow (mulRow xn st.gamma) st.beta,
     { st with running_mean := some rm, running_var := some rv })

/-- `x.reshape(k)` for a flat list of data: NumPy raises unless the total
number of elements equals `k`. -/
def npReshape1 (data : List ℚ) (k : Nat) : Option (List ℚ) :=
  if data.length = k then some data else none

/-- Flatten a rank-4 tensor to its list of elements (row-major). -/
def flatten4 (t : T4) : List ℚ := (t.map (fun c => (c.map (fun h => h.flatten)).flatten)).flatten

/-- The incoming gradient of `BatchNorm.backward`, rank-2 or rank-4
(mirroring `dout.ndim`). -/
inductive BNGrad where
  | r2 (m : Mat)
  | r4 (t : T4)

/-- `BatchNorm.__backward` on a rank-2 `dout`, using the cached
`xn`, `xc`, `std`, `batch_size`; returns `dx` and stores
`dgamma`, `dbeta` (returned here alongside `dx`). -/
def bnBackwardCore (st : BNState) (dout : Mat) : Mat × Vec × Vec :=
  let xn := st.xn.getD []
  let xc := st.xc.getD []
  let std := st.std.getD []
  let bs : ℚ := (st.batch_size.getD 0 : ℚ)
  let dbeta := colSum dout
  let dgamma := colSum (List.zipWith (List.zipWith (· * ·)) xn dout)
  let dxn := mulRow dout st.gamma
  let dxc := divRow dxn std
  let dstd := (colSum (divRow (List.zipWith (List.zipWith (· * ·)) dxn xc)
      (List.zipWith (· * ·) std std))).map (fun v => -v)
  let dvar := List.zipWith (fun a b => (1/2) * a / b) dstd std
  let dxc2 := List.zipWith (List.zipWith (· + ·)) dxc
      (mulRow (matScale (2 / bs) xc) dvar)
  let dmu := colSum dxc2
  let dx := subRow dxc2 (dmu.map (fun v => v / bs))
  (dx, dgamma, dbeta)

/-- `BatchNorm.backward`: a rank-4 `dout` of shape `(N, C, H, W)` is
reshaped by `dout.reshape(N - 1)`, i.e. to a rank-1 array of `N - 1`
elements.  Such a reshape requires `N*C*H*W = N - 1` and therefore
always fails (the tensor has at least `N` elements), so the rank-4
branch never reaches the core computation; the continuation after a
(hypothetically) successful reshape would feed a rank-1 array into the
rank-2 core and is unreachable (see `bn_rank4_reshape_fails`).  A rank-2
`dout` goes straight to the core and is reshaped back to the input
shape, the identity for rank-2 inputs. -/
def bnBackward (st : BNState) (dout : BNGrad) : Option Mat :=
  match dout with
  | .r2 m => some (bnBackwardCore st m).1
  | .r4 t =>
      let N := t.length
      match npReshape1 (flatten4 t) (N - 1) with
      | none => none
      | some _ => none  -- unreachable: the reshape can never succeed

/-- The reshape in the rank-4 branch of `BatchNorm.backward` always
fails: a nonempty rank-4 tensor with nonempty rows holds at least `N`
elements, never `N - 1`. -/
theorem bn_rank4_reshape_fails (t : T4)
    (hne : t ≠ []) (h : ∀ b ∈ t, 1 ≤ (flatten4 [b]).length) :
    npReshape1 (flatten4 t) (t.length - 1) = none := by
  have hlen : t.length ≤ (flatten4 t).length := by
    induction t with
    | nil => simp
    | cons b rest ih =>
        have hb : 1 ≤ (flatten4 [b]).length := h b (by simp)
        have hflat : flatten4 (b :: rest) = flatten4 [b] ++ flatten4 rest := by
          simp [flatten4]
        rcases eq_or_ne rest [] with hr | hr
        · subst hr; simpa using hb
        · have := ih hr (fun b' hb' => h b' (by simp [hb']))
          simp only [hflat, List.length_append, List.length_cons]
          omega
  have hpos : 0 < t.length := List.length_pos.mpr hne
  simp only [npReshape1, ite_eq_right_iff]
  intro hEq
  omega

end BatchNorm

end DNN

namespace DNN

/-- `x.reshape(N, -1)` for a rank-4 tensor: each batch element's
channels/rows are flattened into one row (used by `BatchNorm.forward`). -/
def reshapeTo2 (t : T4) : Mat := t.map (fun img => flatten4 [img])

/-- C5: after every training-mode forward on a batch `x`, the stored
running mean is `momentum * old + (1 - momentum) * mu` and the stored
running variance is `momentum * old + (1 - momentum) * var`, where
`mu`/`var` are the per-feature batch mean and (biased) variance. -/
theorem bn_running_stats_update_c5 (sq : ℚ → ℚ) (st : BNState) (x : Mat)
    (rm rv : Vec) (h1 : st.running_mean = some rm) (h2 : st.running_var = some rv) :
    (bnForward2 sq st x true).2.running_mean =
      some (List.zipWith (fun a b => st.momentum * a + (1 - st.momentum) * b)
        rm (colMean x)) ∧
    (bnForward2 sq st x true).2.running_var =
      some (List.zipWith (fun a b => st.momentum * a + (1 - st.momentum) * b)
        rv (colMean (matSq (subRow x (colMean x))))) := by
  simp [bnForward2, h1, h2]

/-- Concrete `BatchNorm` state with initialized running statistics, used
by the witnesses below. -/
def bnStW : BNState :=
  { gamma := [1], beta := [0], momentum := 9/10,
    running_mean := some [2], running_var := some [3],
    batch_size := none, xc := none, xn := none, std := none }

/-- Witness for C5 at a concrete instance and batch. -/
theorem bn_running_stats_update_c5_witness :
    (bnForward2 id bnStW [[1], [3]] true).2.running_mean =
      some (List.zipWith (fun a b => bnStW.momentum * a + (1 - bnStW.momentum) * b)
        [2] (colMean [[1], [3]])) ∧
    (bnForward2 id bnStW [[1], [3]] true).2.running_var =
      some (List.zipWith (fun a b => bnStW.momentum * a + (1 - bnStW.momentum) * b)
        [3] (colMean (matSq (subRow [[1], [3]] (colMean [[1], [3]]))))) :=
  bn_running_stats_update_c5 id bnStW [[1], [3]] [2] [3] rfl rfl

/-- Counterexample to C6 as stated: on an instance whose running
statistics were never initialized, an inference-mode forward call does
write them (lazy initialization to zero vectors), so they are not
unchanged by the call. -/
theorem bn_inference_lazy_init_c6_cex :
    (bnForward2 id (bnInit [1] [0] (9/10)) [[1]] false).2.running_mean ≠
      (bnInit [1] [0] (9/10)).running_mean := by
  simp [bnForward2, bnInit]

/-- C6 (amended): an inference-mode forward on an instance whose running
statistics are already initialized leaves the stored running mean and
running variance unchanged. -/
theorem bn_inference_preserves_stats_c6 (sq : ℚ → ℚ) (st : BNState) (x : Mat)
    (rm rv : Vec) (h1 : st.running_mean = some rm) (h2 : st.running_var = some rv) :
    (bnForward2 sq st x false).2.running_mean = st.running_mean ∧
    (bnForward2 sq st x false).2.running_var = st.running_var := by
  simp [bnForward2, h1, h2]

/-- Witness for the amended C6 at a concrete instance and input. -/
theorem bn_inference_preserves_stats_c6_witness :
    (bnForward2 id bnStW [[5]] false).2.running_mean = bnStW.running_mean ∧
    (bnForward2 id bnStW [[5]] false).2.running_var = bnStW.running_var :=
  bn_inference_preserves_stats_c6 id bnStW [[5]] [2] [3] rfl rfl

/-- Entry of the inference-mode output chain
`gamma * ((row - 0) / c) + beta` at column `j`. -/
theorem bn_entry_chain (row gamma beta : Vec) (D : Nat) (c : ℚ)
    (hrow : row.length = D) (hg : gamma.length = D) (hb : beta.length = D)
    (j : Nat) (hj : j < D) :
    (List.zipWith (· + ·)
      (List.zipWith (· * ·)
        (List.zipWith (· / ·) (List.zipWith (· - ·) row (List.replicate D 0))
          (List.replicate D c)) gamma) beta).getD j 0 =
      gamma.getD j 0 * (row.getD j 0 / c) + beta.getD j 0 := by
  have hr : row[j]? = some (row.getD j 0) := by
    have hjr : j < row.length := by omega
    simp [List.getElem?_eq_getElem hjr, List.getD_eq_getElem?_getD]
  have hgj : gamma[j]? = some (gamma.getD j 0) := by
    have hjg : j < gamma.length := by omega
    simp [List.getElem?_eq_getElem hjg, List.getD_eq_getElem?_getD]
  have hbj : beta[j]? = some (beta.getD j 0) := by
    have hjb : j < beta.length := by omega
    simp [List.getElem?_eq_getElem hjb, List.getD_eq_getElem?_getD]
  rw [List.getD_eq_getElem?_getD]
  simp only [List.getElem?_zipWith, List.getElem?_replicate_of_lt hj, hr, hgj, hbj]
  simp only [Option.getD_some]
  ring

/-- C10: the first forward call of an uninitialized `BatchNorm` instance
in inference mode on a rank-2 input of shape `(N, D)` does not raise: it
initializes the running mean and variance to zero vectors of length `D`
and returns `gamma * (x / sqrt(0 + 10e-7)) + beta` (the model is total,
so termination without an error is implicit). -/
theorem bn_first_inference_c10 (sq : ℚ → ℚ) (gamma beta : Vec) (mom : ℚ)
    (x : Mat) (D : Nat) (hD : ncols x = D) (hrows : ∀ row ∈ x, row.length = D)
    (hg : gamma.length = D) (hb : beta.length = D) :
    (bnForward2 sq (bnInit gamma beta mom) x false).2.running_mean =
        some (List.replicate D 0) ∧
    (bnForward2 sq (bnInit gamma beta mom) x false).2.running_var =
        some (List.replicate D 0) ∧
    ∀ i j, i < x.length → j < D →
      (((bnForward2 sq (bnInit gamma beta mom) x false).1.getD i []).getD j 0) =
        gamma.getD j 0 * (((x.getD i []).getD j 0) / sq (0 + bnEps)) +
          beta.getD j 0 := by
  subst hD
  refine ⟨by simp [bnForward2, bnInit], by simp [bnForward2, bnInit], ?_⟩
  intro i j hi hj
  rw [zero_add]
  have hout : (bnForward2 sq (bnInit gamma beta mom) x false).1 =
      x.map (fun row => List.zipWith (· + ·)
        (List.zipWith (· * ·)
          (List.zipWith (· / ·) (List.zipWith (· - ·) row (List.replicate (ncols x) 0))
            (List.replicate (ncols x) (sq bnEps))) gamma) beta) := by
    simp [bnForward2, bnInit, addRow, mulRow, divRow, subRow, List.map_replicate]
  have hlen : i < (x.map (fun row => List.zipWith (· + ·)
      (List.zipWith (· * ·)
        (List.zipWith (· / ·) (List.zipWith (· - ·) row (List.replicate (ncols x) 0))
          (List.replicate (ncols x) (sq bnEps))) gamma) beta)).length := by
    simpa using hi
  have hmem : x.getD i [] ∈ x := by
    rw [List.getD_eq_getElem x [] hi]
    exact List.getElem_mem hi
  rw [hout, List.getD_eq_getElem _ _ hlen, List.getElem_map,
    List.getD_eq_getElem x [] hi]
  exact bn_entry_chain _ gamma beta (ncols x) _
    ((List.getD_eq_getElem x [] hi).symm ▸ hrows _ hmem) hg hb j hj

/-- Witness for C10 at a concrete instance and input. -/
theorem bn_first_inference_c10_witness :
    (bnForward2 id (bnInit [2] [1] (9/10)) [[4]] false).2.running_mean =
        some (List.replicate 1 0) ∧
    (bnForward2 id (bnInit [2] [1] (9/10)) [[4]] false).2.running_var =
        some (List.replicate 1 0) ∧
    ∀ i j, i < ([[4]] : Mat).length → j < 1 →
      ((((bnForward2 id (bnInit [2] [1] (9/10)) [[4]] false).1.getD i []).getD j 0)) =
        ([2] : Vec).getD j 0 * (((([[4]] : Mat).getD i []).getD j 0) / id (0 + bnEps)) +
          ([1] : Vec).getD j 0 :=
  bn_first_inference_c10 id [2] [1] (9/10) [[4]] 1 rfl (by simp) rfl rfl

/-- C3 (code evaluated at the failing input): a training-mode forward on
rank-4 input of shape `(2,1,1,1)` followed by `backward` with a rank-4
`dout` of the same shape fails: `backward` attempts
`dout.reshape(N - 1) = dout.reshape(1)` on a 2-element array, which is a
size-mismatched reshape, not the `(N, C*H*W)` flattening the claim
states. -/
theorem bn_backward_rank4_raises_c3 :
    (bnBackward
      (bnForward2 id (bnInit [1] [0] (9/10)) (reshapeTo2 [[[[1]]], [[[2]]]]) true).2
      (.r4 [[[[1]]], [[[1]]]])) = none := rfl

end DNN

namespace DNN

section Dropout

/-- State of a `Dropout` instance: the drop ratio and the cached mask
(`None` until a training-mode forward runs). -/
structure DropoutState where
  dropout_ratio : ℚ
  mask : Option (List (List Bool))
  deriving DecidableEq

/-- A fresh `Dropout` instance (`Dropout.__init__`): `mask = None`. -/
def dropoutInit (ratio : ℚ) : DropoutState :=
  { dropout_ratio := ratio, mask := none }

/-- `x * mask` for a boolean mask (NumPy multiplies with `True = 1`). -/
def maskMul (x : Mat) (m : List (List Bool)) : Mat :=
  List.zipWith (List.zipWith (fun v b => if b then v else 0)) x m

/-- `Dropout.forward(x, train_flag)`.  The `np.random.rand(*x.shape)`
draw is modelled by the explicit argument `r` (a sample of the same
shape as `x`); the mask is `r > dropout_ratio` elementwise.  In
inference mode the state is untouched and `x * (1 - dropout_ratio)` is
returned. -/
def dropoutForward (st : DropoutState) (x r : Mat) (train_flag : Bool) :
    Mat × DropoutState :=
  if train_flag then
    let m := r.map (fun row => row.map (fun v => decide (st.dropout_ratio < v)))
    (maskMul x m, { st with mask := some m })
  else
    (x.map (fun row => row.map (fun v => v * (1 - st.dropout_ratio))), st)

/-- `Dropout.backward(dout)`: `dout * self.mask`.  With no prior
training-mode forward, `self.mask` is `None` and multiplying an array by
`None` raises a `TypeError`; that failure is modelled as `none`. -/
def dropoutBackward (st : DropoutState) (dout : Mat) : Option Mat :=
  st.mask.map (fun m => maskMul dout m)

/-- Apply a sequence of forward calls, each a triple
(input, random draw, train flag), threading the instance state. -/
def dropoutRunForwards (st : DropoutState) (calls : List (Mat × Mat × Bool)) :
    DropoutState :=
  calls.foldl (fun s c => (dropoutForward s c.1 c.2.1 c.2.2).2) st

end Dropout

/-- C7: calling `Dropout.backward` on an instance that has had no
training-mode forward (any number of inference-mode forwards is allowed)
fails — the mask is still `None`, so `dout * self.mask` raises — and in
particular no stale mask can be applied, since none was ever cached. -/
theorem dropout_backward_no_training_forward_c7 (ratio : ℚ)
    (calls : List (Mat × Mat × Bool)) (dout : Mat)
    (h : ∀ c ∈ calls, c.2.2 = false) :
    dropoutBackward (dropoutRunForwards (dropoutInit ratio) calls) dout = none := by
  have key : ∀ (cs : List (Mat × Mat × Bool)) (st : DropoutState),
      (∀ c ∈ cs, c.2.2 = false) → st.mask = none →
      (dropoutRunForwards st cs).mask = none := by
    intro cs
    induction cs with
    | nil => intro st _ hm; simpa [dropoutRunForwards] using hm
    | cons c rest ih =>
        intro st hall hm
        have hc : c.2.2 = false := hall c (by simp)
        have hstep : dropoutRunForwards st (c :: rest) =
            dropoutRunForwards (dropoutForward st c.1 c.2.1 c.2.2).2 rest := rfl
        rw [hstep]
        refine ih _ (fun d hd => hall d (by simp [hd])) ?_
        simp [dropoutForward, hc, hm]
  have hmask := key calls (dropoutInit ratio) h rfl
  simp [dropoutBackward, hmask]

/-- Witness for C7: a fresh instance given one inference-mode forward,
then backward, which fails. -/
theorem dropout_backward_no_training_forward_c7_witness :
    dropoutBackward
      (dropoutRunForwards (dropoutInit (1/2)) [([[1]], [[0]], false)]) [[1]] = none :=
  dropout_backward_no_training_forward_c7 (1/2) [([[1]], [[0]], false)] [[1]] (by simp)

end DNN

namespace DNN

section Pooling

/-- Entry `(i, j)` of a channel image zero-padded by `pad` on each
spatial side (out-of-range reads give the pad value `0`). -/
def padGet (ch : List (List ℚ)) (pad i j : Nat) : ℚ :=
  if pad ≤ i ∧ pad ≤ j then (ch.getD (i - pad) []).getD (j - pad) 0 else 0

/-- Output spatial size `1 + (size + 2*pad - filter) / stride`
(floor division; stated for `filter ≤ size + 2*pad` and `stride > 0`,
the regime in which NumPy would not error). -/
def outDim (size filter stride pad : Nat) : Nat :=
  1 + (size + 2 * pad - filter) / stride

/-- Modelled from the spec: `im2col(x, filterH, filterW, stride, pad)`
lives in `utility/trick`, which is not under `src/`.  Per the spec it
zero-pads spatially, then lays every sliding filter-sized window out as
one row — rows indexed by (batch, outRow, outCol), columns by
(channel, filterRow, filterCol) — giving shape
`(batch*outH*outW, channels*filterH*filterW)` with
`outH = 1 + floor((H + 2*pad - filterH)/stride)`. -/
def im2col (x : T4) (fh fw stride pad : Nat) : Mat :=
  let H := ((x.headD []).headD []).length
  let W := (((x.headD []).headD []).headD []).length
  let oh := outDim H fh stride pad
  let ow := outDim W fw stride pad
  ((x.map (fun img =>
    ((List.range oh).map (fun r =>
      (List.range ow).map (fun s =>
        (img.map (fun ch =>
          ((List.range fh).map (fun i =>
            (List.range fw).map (fun j =>
              padGet ch pad (r * stride + i) (s * stride + j)))).flatten)).flatten))).flatten)).flatten)

/-- `data.reshape(-1, cols)`: NumPy infers the row count and raises when
the total number of elements is not divisible by `cols`. -/
def npReshapeRows (data : List ℚ) (cols : Nat) : Option Mat :=
  if 0 < cols ∧ data.length % cols = 0 then some (List.toChunks cols data) else none

/-- `data.reshape(d1, d2, d3, d4)`: raises unless the element count
matches exactly. -/
def npReshape4 (data : List ℚ) (d1 d2 d3 d4 : Nat) : Option T4 :=
  if data.length = d1 * d2 * d3 * d4 then
    some (List.toChunks d2 (List.toChunks d3 (List.toChunks d4 data)))
  else none

/-- `np.max(row)` over a nonempty row (`np.max` raises on an empty one;
that case never occurs here). -/
def maxRow : List ℚ → ℚ
  | [] => 0
  | h :: t => t.foldl max h

/-- `np.argmax(row)`: index of the first occurrence of the maximum. -/
def argmaxRow (l : List ℚ) : Nat :=
  (l.foldl (fun acc v =>
    if acc.2.1 < v then (acc.2.2, v, acc.2.2 + 1) else (acc.1, acc.2.1, acc.2.2 + 1))
    (0, l.headD 0, 0)).1

/-- `out.transpose(0, 3, 1, 2)` on a tensor of shape `(N, oh, ow, C)`:
result[n][c][r][s] = t[n][r][s][c]. -/
def transpose_0_3_1_2 (t : T4) : T4 :=
  t.map (fun b =>
    (List.range (((b.headD []).headD []).length)).map (fun c =>
      b.map (fun r => r.map (fun s => s.getD c 0))))

/-- `Pooling.forward(x)` for a layer built with `pool_h`, `pool_w`,
`stride`, `pad`.  Mirrors the source: `out_h = int(1 + (H - pool_h) /
stride)` and `out_w = int(1 + (W - pool_w) / stride)` are computed
*without* the padding term (stated for `pool_h ≤ H`, `pool_w ≤ W`,
`stride > 0`, where Python's truncating division agrees with `Nat`
division), `im2col` is called *with* `pad`, the columns are regrouped to
width `pool_h*pool_w`, the row-wise max is taken (the row-wise argmax is
cached on the instance; it does not affect the returned value), and the
result is reshaped to `(N, out_h, out_w, C)` — which raises when the
element counts disagree — then transposed to `(N, C, out_h, out_w)`. -/
def poolingForward (pool_h pool_w stride pad : Nat) (x : T4) : Option T4 :=
  let N := x.length
  let C := (x.headD []).length
  let H := ((x.headD []).headD []).length
  let W := (((x.headD []).headD []).headD []).length
  let out_h := 1 + (H - pool_h) / stride
  let out_w := 1 + (W - pool_w) / stride
  let col := im2col x pool_h pool_w stride pad
  match npReshapeRows col.flatten (pool_h * pool_w) with
  | none => none
  | some col2 =>
      let out := col2.map maxRow
      match npReshape4 out N out_h out_w C with
      | none => none
      | some o => some (transpose_0_3_1_2 o)

end Pooling

/-- C4 (code evaluated at the failing input): with `pad = 1`,
`Pooling.forward` on a `(1,1,2,2)` input with a `2×2` window and stride
`1` does not return a `(1,1,3,3)` tensor as the claimed formula
`outH = 1 + floor((H + 2*pad - poolH)/stride) = 3` requires: the code
computes `out_h`/`out_w` without the padding term, so the final reshape
receives 9 pooled values for a `(1,1,1,1)` target and raises. -/
theorem pooling_forward_pad_raises_c4 :
    poolingForward 2 2 1 1 [[[[1, 2], [3, 4]]]] = none ∧
      outDim 2 2 1 1 = 3 := by
  constructor
  · rfl
  · rfl

end DNN

namespace DNN

section Relu

/-- A boolean mask, one flag per array entry. -/
abbrev BMask := List (List Bool)

/-- `(x <= 0)` elementwise (`self.mask` in `Relu.forward`). -/
def leMask (x : Mat) : BMask :=
  x.map (fun row => row.map (fun v => decide (v ≤ 0)))

/-- `a[mask] = 0`: the entries at the mask's `True` positions become
`0`, the others keep their value. -/
def zeroAtMask (m : BMask) (a : Mat) : Mat :=
  List.zipWith (List.zipWith (fun b v => if b then 0 else v)) m a

/-- A heap of NumPy array objects: a reference is an index into the
list.  Which reference a name denotes is explicit, so in-place mutation
and aliasing are observable. -/
abbrev Store := List Mat

/-- Read the array behind reference `r`. -/
def Store.get (s : Store) (r : Nat) : Mat := List.getD s r []

/-- Overwrite the array behind reference `r` (in-place mutation). -/
def Store.set (s : Store) (r : Nat) (m : Mat) : Store := List.set s r m

/-- `Relu.forward`: caches `self.mask = (x <= 0)`, copies the input
(`out = x.copy()`), zeroes the copy at the masked positions
(`out[self.mask] = 0`) and returns it.  The copy is a fresh array: the
store grows by one entry, and the argument's array is untouched.
Returns (new store, reference of the returned array, cached mask). -/
def reluForwardS (s : Store) (xr : Nat) : Store × Nat × BMask :=
  let x := s.get xr
  let mask := leMask x
  (s ++ [zeroAtMask mask x], s.length, mask)

/-- `Relu.backward`: `dout[self.mask] = 0` mutates the argument array in
place, and `dx = dout` aliases it, so the same reference is returned. -/
def reluBackwardS (s : Store) (mask : BMask) (dr : Nat) : Store × Nat :=
  (s.set dr (zeroAtMask mask (s.get dr)), dr)

/-- The forward-then-backward scenario of the ReLU layer on a two-array
store holding the input `x` (reference 0) and the gradient `dOut`
(reference 1): forward reads reference 0, backward is handed
reference 1 and the cached mask. -/
def reluScenario (x d : Mat) : (Store × Nat × BMask) × (Store × Nat) :=
  let f := reluForwardS [x, d] 0
  (f, reluBackwardS f.1 f.2.2 1)

end Relu

/-- Entry `j` of a row zeroed at the positions where the source row is
`≤ 0`. -/
theorem zeroRow_entry (xr ar : Vec) (j : Nat)
    (hlen : ar.length = xr.length) (hj : j < xr.length) :
    (List.zipWith (fun b v => if b then 0 else v)
        (xr.map (fun v => decide (v ≤ 0))) ar).getD j 0 =
      if xr.getD j 0 ≤ 0 then 0 else ar.getD j 0 := by
  induction xr generalizing ar j with
  | nil => simp at hj
  | cons h t ih =>
      cases ar with
      | nil => simp at hlen
      | cons ha ta =>
          cases j with
          | zero =>
              by_cases hc : h ≤ 0 <;> simp [hc]
          | succ n =>
              simp only [List.map_cons, List.zipWith_cons_cons,
                List.getD_cons_succ]
              exact ih ta n (by simpa using hlen) (by simpa using hj)

/-- Entry `(i, j)` of `a` zeroed at the mask `x <= 0`, for `a` of the
same shape as `x`. -/
theorem zeroAtMask_entry (x a : Mat) (i j : Nat)
    (hlen : a.length = x.length)
    (hrow : ∀ k, k < x.length → (a.getD k []).length = (x.getD k []).length)
    (hi : i < x.length) (hj : j < (x.getD i []).length) :
    ((zeroAtMask (leMask x) a).getD i []).getD j 0 =
      if (x.getD i []).getD j 0 ≤ 0 then 0 else (a.getD i []).getD j 0 := by
  induction x generalizing a i with
  | nil => simp at hi
  | cons xr xt ih =>
      cases a with
      | nil => simp at hlen
      | cons ar arest =>
          cases i with
          | zero =>
              simp only [zeroAtMask, leMask, List.map_cons,
                List.zipWith_cons_cons, List.getD_cons_zero] at *
              exact zeroRow_entry xr ar j (by simpa using hrow 0 (by simp)) hj
          | succ n =>
              simp only [zeroAtMask, leMask, List.map_cons,
                List.zipWith_cons_cons, List.getD_cons_succ] at *
              exact ih arest n (by simpa using hlen)
                (fun k hk => by simpa using hrow (k + 1) (by simp only [List.length_cons]; omega))
                (by simpa using hi) hj

/-- C8: after `forward(x)`, `backward(dOut)` returns `dOut` with entries
zeroed exactly where `x ≤ 0` and unchanged elsewhere, mutating the
`dOut` array in place and returning that very array (the same
reference); `forward` itself returns a fresh copy of `x` with those
positions zeroed and leaves the `x` array unmodified. -/
theorem relu_inplace_c8 (x d : Mat)
    (hlen : d.length = x.length)
    (hrow : ∀ k, k < x.length → (d.getD k []).length = (x.getD k []).length) :
    (reluScenario x d).1.2.1 = 2 ∧
    (∀ i j, i < x.length → j < (x.getD i []).length →
      (((reluScenario x d).1.1.get (reluScenario x d).1.2.1).getD i []).getD j 0 =
        if (x.getD i []).getD j 0 ≤ 0 then 0 else (x.getD i []).getD j 0) ∧
    (reluScenario x d).1.1.get 0 = x ∧
    (reluScenario x d).2.1.get 0 = x ∧
    (reluScenario x d).2.2 = 1 ∧
    (∀ i j, i < x.length → j < (x.getD i []).length →
      (((reluScenario x d).2.1.get 1).getD i []).getD j 0 =
        if (x.getD i []).getD j 0 ≤ 0 then 0 else (d.getD i []).getD j 0) := by
  refine ⟨rfl, ?_, rfl, rfl, rfl, ?_⟩
  · intro i j hi hj
    have hfr : (reluScenario x d).1.1.get (reluScenario x d).1.2.1 =
        zeroAtMask (leMask x) x := rfl
    rw [hfr]
    exact zeroAtMask_entry x x i j rfl (fun k _ => rfl) hi hj
  · intro i j hi hj
    have hbr : (reluScenario x d).2.1.get 1 = zeroAtMask (leMask x) d := rfl
    rw [hbr]
    exact zeroAtMask_entry x d i j hlen hrow hi hj

/-- Witness for C8 at a concrete input and gradient. -/
theorem relu_inplace_c8_witness :
    (reluScenario [[1, -1]] [[5, 7]]).1.2.1 = 2 ∧
    (∀ i j, i < ([[1, -1]] : Mat).length → j < (([[1, -1]] : Mat).getD i []).length →
      (((reluScenario [[1, -1]] [[5, 7]]).1.1.get
          (reluScenario [[1, -1]] [[5, 7]]).1.2.1).getD i []).getD j 0 =
        if (([[1, -1]] : Mat).getD i []).getD j 0 ≤ 0 then 0
        else (([[1, -1]] : Mat).getD i []).getD j 0) ∧
    (reluScenario [[1, -1]] [[5, 7]]).1.1.get 0 = [[1, -1]] ∧
    (reluScenario [[1, -1]] [[5, 7]]).2.1.get 0 = [[1, -1]] ∧
    (reluScenario [[1, -1]] [[5, 7]]).2.2 = 1 ∧
    (∀ i j, i < ([[1, -1]] : Mat).length → j < (([[1, -1]] : Mat).getD i []).length →
      (((reluScenario [[1, -1]] [[5, 7]]).2.1.get 1).getD i []).getD j 0 =
        if (([[1, -1]] : Mat).getD i []).getD j 0 ≤ 0 then 0
        else (([[5, 7]] : Mat).getD i []).getD j 0) :=
  relu_inplace_c8 [[1, -1]] [[5, 7]] rfl
    (by
      intro k hk
      simp only [List.length_cons, List.length_nil] at hk
      have hk0 : k = 0 := by omega
      subst hk0
      rfl)

end DNN
